import Mathlib

/-
  Verification of the c_array_support library (Lemuriad/c_array_support).

  The repository is a compile-time C++ library treating fixed-size,
  possibly multidimensional C arrays as comparable / assignable values.
  We shallowly embed the data model and the operations of
  c_array_support/c_array_compare.hpp (which bundles the compare and the
  assign headers) and prove the specification claims about them.

  The shape / flattening layer (c_array_support.hpp) is not in the
  sources we were given; its facilities (flat_size, flat_index,
  same_extents, all_extents_removed) are modelled from the spec, §4.1.
-/

namespace CArraySupport

/-- The shape of a C array type: nesting depth plus the extent at each
nesting level, element type ignored (spec §3 "Array Shape").
`scalar` is a non-array type; `array n s` is an array of `n` elements
of shape `s`. -/
inductive Shape : Type where
  | scalar : Shape
  | array : Nat → Shape → Shape
deriving DecidableEq, Repr

/-- Modelled from the spec: `total_extent` / `flat_size` (missing header
c_array_support.hpp): the product of all dimension extents, `1` for a
non-array type. -/
def flat_size : Shape → Nat
  | .scalar => 1
  | .array n s => n * flat_size s

/-- Whether a shape is an array shape (models the `c_array` concept of the
missing header c_array_support.hpp: true iff the type is a C array). -/
def isArrayShape : Shape → Bool
  | .scalar => false
  | .array _ _ => true

/-- Modelled from the spec: `same_extents` / `same_shape` (missing header
c_array_support.hpp): true iff both types are non-array, or both are
arrays with identical nesting depth and identical extent at every
level (element types are ignored, which the shape type already does). -/
def same_extents : Shape → Shape → Bool
  | .scalar, .scalar => true
  | .array m s, .array n t => m == n && same_extents s t
  | _, _ => false

/-- A value of shape `s` with innermost elements drawn from `α`:
a scalar is a bare element, an array of extent `n` is a function from
indices below `n` to values of the element shape. -/
def Val (α : Type) : Shape → Type
  | .scalar => α
  | .array n s => Fin n → Val α s

/-- Modelled from the spec: the row-major linearization underlying
`flat_index` (missing header c_array_support.hpp): the sequence of the
`total_extent` innermost elements in row-major order; `flat_index(a,i)`
is the `i`-th entry of this list. -/
def flatten {α : Type} : {s : Shape} → Val α s → List α
  | .scalar, a => [a]
  | .array n _, v => (List.finRange n).flatMap (fun i => flatten (v i))

/-- The flattening of a value of shape `s` has exactly `flat_size s`
elements. -/
theorem flatten_length {α : Type} : {s : Shape} → (v : Val α s) →
    (flatten v).length = flat_size s
  | .scalar, _ => rfl
  | .array n s, v => by
      simp only [flatten, flat_size, List.length_flatMap]
      have h : ∀ (l : List (Fin n)),
          (l.map (fun i => (flatten (v i)).length)).sum = l.length * flat_size s := by
        intro l
        induction l with
        | nil => simp
        | cons a l ih =>
            simp [ih, flatten_length (v a), Nat.succ_mul, Nat.add_comm]
      simpa using h (List.finRange n)

/-- The result category of a three-way comparison: the values of
std::partial_ordering (less, equivalent, greater, unordered), the
default comparison category `Cat` of the library's concepts. -/
inductive POrd : Type where
  | lt : POrd
  | eq : POrd
  | gt : POrd
  | unord : POrd
deriving DecidableEq, Repr

/-- Whether a comparison result compares less than zero: only `lt` does
(in C++, `partial_ordering::unordered < 0` is false). -/
def POrd.isLt : POrd → Bool
  | .lt => true
  | _ => false

/-- The loop of lml::equal_to's array branch
(c_array_compare.hpp, lines 228-231), over the row-major element
sequences: for each flat index, if the elements compare unequal with
the element != return false; after the loop return true. -/
def eqLoop {α : Type} (bne : α → α → Bool) : List α → List α → Bool
  | x :: xs, y :: ys => if bne x y then false else eqLoop bne xs ys
  | _, _ => true

/-- The loop of lml::compare_three_way's array branch
(c_array_compare.hpp, lines 192-199), over the row-major element
sequences: for each flat index, three-way-compare the elements and
return the first result that is not equivalent; after the loop return
equivalent. -/
def cmp3Loop {α : Type} (cmp : α → α → POrd) : List α → List α → POrd
  | x :: xs, y :: ys =>
      if cmp x y = POrd.eq then cmp3Loop cmp xs ys else cmp x y
  | _, _ => POrd.eq

/-- The loop of lml::less's array branch
(c_array_compare.hpp, lines 300-303), over the row-major element
sequences: for each flat index, if the elements compare unequal with
the element != return the element <; after the loop return false. -/
def lessLoop {α : Type} (bne blt : α → α → Bool) : List α → List α → Bool
  | x :: xs, y :: ys => if bne x y then blt x y else lessLoop bne blt xs ys
  | _, _ => false

/-- lml::equal_to (c_array_compare.hpp, lines 215-243), for operands of
one same shape `s` (the `equality_comparable_with` constraint demands
`same_extents`, so only same-shape pairs are accepted; the element
operations == and != are the parameters `beq` and `bne`): a non-array
operand is compared directly with ==, an array operand by the flat
element loop using !=. -/
def equal_to {α : Type} (beq bne : α → α → Bool) :
    {s : Shape} → Val α s → Val α s → Bool
  | .scalar, a, b => beq a b
  | .array _ _, l, r => eqLoop bne (flatten l) (flatten r)

/-- lml::not_equal_to (c_array_compare.hpp, lines 247-268): the negation
of lml::equal_to. -/
def not_equal_to {α : Type} (beq bne : α → α → Bool)
    {s : Shape} (l r : Val α s) : Bool :=
  ! equal_to beq bne l r

/-- lml::compare_three_way (c_array_compare.hpp, lines 179-211), for
operands of one same shape `s` (its `three_way_comparable_with`
constraint demands `same_extents`; the element <=> is the parameter
`cmp`): a non-array operand is compared directly with <=> (the
`std::three_way_comparable_with` branch — <=> on two array operands is
ill-formed in C++, so arrays never take it), an array operand by the
flat element loop. -/
def compare_three_way {α : Type} (cmp : α → α → POrd) :
    {s : Shape} → Val α s → Val α s → POrd
  | .scalar, a, b => cmp a b
  | .array _ _, l, r => cmp3Loop cmp (flatten l) (flatten r)

/-- lml::less (c_array_compare.hpp, lines 273-315), for non-pointer
operands of one same shape `s` (its `totally_ordered_with` constraint
demands `same_extents`; the element != and < are the parameters `bne`
and `blt`): a non-array operand is compared directly with <, an array
operand by the flat element loop (the raw-pointer branch is modelled
separately as `ptr_less`). -/
def less {α : Type} (bne blt : α → α → Bool) :
    {s : Shape} → Val α s → Val α s → Bool
  | .scalar, a, b => blt a b
  | .array _ _, l, r => lessLoop bne blt (flatten l) (flatten r)

/-- The equality loop returns true exactly when no positional pair of
elements compares unequal with the element !=. -/
theorem eqLoop_iff {α : Type} (bne : α → α → Bool) :
    ∀ xs ys : List α,
      (eqLoop bne xs ys = true ↔ ∀ p ∈ xs.zip ys, bne p.1 p.2 = false) := by
  intro xs
  induction xs with
  | nil => intro ys; cases ys <;> simp [eqLoop]
  | cons x xs ih =>
      intro ys
      cases ys with
      | nil => simp [eqLoop]
      | cons y ys =>
          by_cases h : bne x y = true
          · simp [eqLoop, h]
          · simp only [Bool.not_eq_true] at h
            simp [eqLoop, h, ih]

/-- The three-way loop returns the first non-equivalent elementwise
comparison result, and equivalent when there is none. -/
theorem cmp3Loop_eq_find {α : Type} (cmp : α → α → POrd) :
    ∀ xs ys : List α,
      cmp3Loop cmp xs ys =
        (((xs.zip ys).map (fun p => cmp p.1 p.2)).find?
          (fun c => decide (c ≠ POrd.eq))).getD POrd.eq := by
  intro xs
  induction xs with
  | nil => intro ys; cases ys <;> simp [cmp3Loop]
  | cons x xs ih =>
      intro ys
      cases ys with
      | nil => simp [cmp3Loop]
      | cons y ys =>
          by_cases h : cmp x y = POrd.eq
          · simp [cmp3Loop, h, List.find?_cons_of_neg, ih]
          · simp [cmp3Loop, h, List.find?_cons_of_pos]

/-- The three-way loop yields equivalent exactly when the equality loop
yields true, whenever the element != is false exactly on elementwise
equivalent pairs. -/
theorem cmp3Loop_eq_iff_eqLoop {α : Type} (cmp : α → α → POrd)
    (bne : α → α → Bool)
    (h : ∀ a b, bne a b = false ↔ cmp a b = POrd.eq) :
    ∀ xs ys : List α,
      (cmp3Loop cmp xs ys = POrd.eq ↔ eqLoop bne xs ys = true) := by
  intro xs
  induction xs with
  | nil => intro ys; cases ys <;> simp [cmp3Loop, eqLoop]
  | cons x xs ih =>
      intro ys
      cases ys with
      | nil => simp [cmp3Loop, eqLoop]
      | cons y ys =>
          by_cases hc : cmp x y = POrd.eq
          · have hb : bne x y = false := (h x y).mpr hc
            simp [cmp3Loop, eqLoop, hc, hb, ih]
          · have hb : bne x y = true := by
              cases hbv : bne x y with
              | false => exact absurd ((h x y).mp hbv) hc
              | true => rfl
            simp [cmp3Loop, eqLoop, hc, hb]

/-- The less loop returns, at the first positional pair whose elements
compare unequal with the element !=, the element < of that pair, and
false when no pair compares unequal. -/
theorem lessLoop_eq_find {α : Type} (bne blt : α → α → Bool) :
    ∀ xs ys : List α,
      lessLoop bne blt xs ys =
        ((xs.zip ys).find? (fun p => bne p.1 p.2)).elim
          false (fun p => blt p.1 p.2) := by
  intro xs
  induction xs with
  | nil => intro ys; cases ys <;> simp [lessLoop]
  | cons x xs ih =>
      intro ys
      cases ys with
      | nil => simp [lessLoop]
      | cons y ys =>
          by_cases h : bne x y = true
          · simp [lessLoop, h, List.find?_cons_of_pos]
          · simp only [Bool.not_eq_true] at h
            simp [lessLoop, h, List.find?_cons_of_neg, ih]

/-- The less loop agrees with the less-than test of the three-way loop,
whenever the element != holds exactly on non-equivalent pairs and the
element < holds exactly on less-ordered pairs. -/
theorem lessLoop_eq_cmp3Loop_isLt {α : Type} (cmp : α → α → POrd)
    (bne blt : α → α → Bool)
    (hne : ∀ a b, bne a b = true ↔ ¬ cmp a b = POrd.eq)
    (hlt : ∀ a b, blt a b = true ↔ cmp a b = POrd.lt) :
    ∀ xs ys : List α,
      lessLoop bne blt xs ys = (cmp3Loop cmp xs ys).isLt := by
  intro xs
  induction xs with
  | nil => intro ys; cases ys <;> simp [lessLoop, cmp3Loop, POrd.isLt]
  | cons x xs ih =>
      intro ys
      cases ys with
      | nil => simp [lessLoop, cmp3Loop, POrd.isLt]
      | cons y ys =>
          by_cases hc : cmp x y = POrd.eq
          · have hb : bne x y = false := by
              cases hbv : bne x y with
              | false => rfl
              | true => exact absurd hc ((hne x y).mp hbv)
            simp [lessLoop, cmp3Loop, hc, hb, ih]
          · have hb : bne x y = true := (hne x y).mpr hc
            have hblt : blt x y = (cmp x y).isLt := by
              cases hcv : cmp x y with
              | lt => exact (hlt x y).mpr hcv
              | eq => exact absurd hcv hc
              | gt =>
                  cases hbv : blt x y with
                  | false => rfl
                  | true =>
                      have h2 := (hlt x y).mp hbv
                      rw [hcv] at h2
                      exact absurd h2 (by simp)
              | unord =>
                  cases hbv : blt x y with
                  | false => rfl
                  | true =>
                      have h2 := (hlt x y).mp hbv
                      rw [hcv] at h2
                      exact absurd h2 (by simp)
            simp [lessLoop, cmp3Loop, hc, hb, hblt]

/-- C1: for all arrays (values of one same shape, as the
`equality_comparable_with` constraint requires) whose element != is the
negation of the element == (equality-comparable elements),
`equal_to{}(A,B)` returns true if and only if, at every flat index of
the row-major linearization, the elements of A and B at that index
compare equal — stated as a positional `Forall₂` over the two row-major
element sequences (the iteration short-circuits at the first mismatch,
which the recursion of `eqLoop` exhibits; the returned value is as
claimed). -/
theorem equal_to_true_iff {α : Type} (beq bne : α → α → Bool) {s : Shape}
    (l r : Val α s) (hbne : ∀ a b, bne a b = !(beq a b)) :
    (equal_to beq bne l r = true ↔
      List.Forall₂ (fun a b => beq a b = true) (flatten l) (flatten r)) := by
  have hkey : ∀ a b, (bne a b = false ↔ beq a b = true) := by
    intro a b
    rw [hbne a b]
    cases beq a b <;> simp
  cases s with
  | scalar =>
      show beq l r = true ↔ _
      show _ ↔ List.Forall₂ _ [l] [r]
      simp
  | array n s =>
      show eqLoop bne (flatten l) (flatten r) = true ↔ _
      rw [eqLoop_iff, List.forall₂_iff_zip]
      constructor
      · intro h
        refine ⟨?_, ?_⟩
        · rw [flatten_length l, flatten_length r]
        · intro a b hab
          exact (hkey a b).mp (h (a, b) hab)
      · rintro ⟨-, h⟩ p hp
        exact (hkey p.1 p.2).mpr (h hp)

/-- Builds an array value from its indexed children (the definitional
unfolding of `Val` at an array shape, made explicit for elaboration). -/
def mkArr {α : Type} {s : Shape} (n : Nat) (f : Fin n → Val α s) :
    Val α (.array n s) := f

/-- Builds a scalar value (the definitional unfolding of `Val` at the
scalar shape, made explicit for elaboration). -/
def mkScalar {α : Type} (a : α) : Val α .scalar := a

/-- The element == of `Nat`, used by concrete witnesses. -/
def beqNat (a b : Nat) : Bool := a == b

/-- The element != of `Nat`, used by concrete witnesses. -/
def bneNat (a b : Nat) : Bool := !(a == b)

/-- The element < of `Nat`, used by concrete witnesses. -/
def bltNat (a b : Nat) : Bool := decide (a < b)

/-- The element <=> of `Nat`, used by concrete witnesses. -/
def cmpNat (a b : Nat) : POrd :=
  if a < b then POrd.lt else if b < a then POrd.gt else POrd.eq

/-- The `Nat` element == holds exactly when the `Nat` element <=> is
equivalent. -/
theorem cmpNat_eq_iff (a b : Nat) :
    (beqNat a b = true ↔ cmpNat a b = POrd.eq) := by
  simp only [beqNat, beq_iff_eq, cmpNat]
  constructor
  · rintro rfl
    simp
  · intro h
    by_cases hab : a < b
    · rw [if_pos hab] at h
      exact absurd h (by simp)
    · by_cases hba : b < a
      · rw [if_neg hab, if_pos hba] at h
        exact absurd h (by simp)
      · omega

/-- The `Nat` element != holds exactly when the `Nat` element <=> is not
equivalent. -/
theorem cmpNat_ne_iff (a b : Nat) :
    (bneNat a b = true ↔ ¬ cmpNat a b = POrd.eq) := by
  have h := cmpNat_eq_iff a b
  simp only [beqNat] at h
  rw [← h, bneNat]
  cases a == b <;> simp

/-- The `Nat` element < holds exactly when the `Nat` element <=> is
less. -/
theorem cmpNat_lt_iff (a b : Nat) :
    (bltNat a b = true ↔ cmpNat a b = POrd.lt) := by
  simp only [bltNat, decide_eq_true_iff, cmpNat]
  by_cases hab : a < b
  · simp [hab]
  · by_cases hba : b < a <;> simp [hab, hba]

/-- The concrete array `{{0,1},{2,3}}` as a value of shape 2 x 2. -/
def vA : Val Nat (.array 2 (.array 2 .scalar)) :=
  mkArr 2 (fun i => mkArr 2 (fun j => mkScalar (2 * i.val + j.val)))

/-- The concrete array `{{0,1},{2,2}}` as a value of shape 2 x 2. -/
def vB : Val Nat (.array 2 (.array 2 .scalar)) :=
  mkArr 2 (fun i => mkArr 2 (fun j => mkScalar (min (2 * i.val + j.val) 2)))

/-- The concrete array `{1,2}` as a value of shape 2. -/
def vC : Val Nat (.array 2 .scalar) :=
  mkArr 2 (fun i => mkScalar (i.val + 1))

/-- The concrete array `{1,3}` as a value of shape 2. -/
def vD : Val Nat (.array 2 .scalar) :=
  mkArr 2 (fun i => mkScalar (2 * i.val + 1))

/-- Witness for C1 at `int a[2][2] = {{0,1},{2,3}}` compared with
itself, element operations those of `Nat`. -/
theorem equal_to_true_iff_witness :
    (equal_to beqNat bneNat vA vA = true ↔
      List.Forall₂ (fun a b : Nat => beqNat a b = true)
        (flatten vA) (flatten vA)) :=
  equal_to_true_iff beqNat bneNat vA vA (fun _ _ => rfl)

/-- C2: for all arrays (values of one same shape) whose element
three-way comparison is consistent with the element == and != (as the
semantic requirements of three-way comparability demand),
`compare_three_way{}(A,B)` returns the elementwise comparison result at
the first flat index where that result is not equivalent, and
equivalent when every position compares equivalent (the `find?` over
the row-major positional comparison results); hence it returns
equivalent exactly when `equal_to(A,B)` is true. -/
theorem compare_three_way_spec {α : Type} (cmp : α → α → POrd)
    (beq bne : α → α → Bool) {s : Shape} (l r : Val α s)
    (hbeq : ∀ a b, (beq a b = true ↔ cmp a b = POrd.eq))
    (hbne : ∀ a b, bne a b = !(beq a b)) :
    (compare_three_way cmp l r =
        ((((flatten l).zip (flatten r)).map (fun p => cmp p.1 p.2)).find?
          (fun c => decide (c ≠ POrd.eq))).getD POrd.eq)
    ∧ (compare_three_way cmp l r = POrd.eq ↔ equal_to beq bne l r = true) := by
  have hkey : ∀ a b, (bne a b = false ↔ cmp a b = POrd.eq) := by
    intro a b
    rw [hbne a b, ← hbeq a b]
    cases beq a b <;> simp
  cases s with
  | scalar =>
      have hfl : flatten l = [l] := rfl
      have hfr : flatten r = [r] := rfl
      constructor
      · show cmp l r = _
        rw [hfl, hfr, ← cmp3Loop_eq_find]
        by_cases h : cmp l r = POrd.eq
        · simp [cmp3Loop, h]
        · simp [cmp3Loop, h]
      · show cmp l r = POrd.eq ↔ beq l r = true
        exact (hbeq l r).symm
  | array n s =>
      constructor
      · exact cmp3Loop_eq_find cmp (flatten l) (flatten r)
      · exact cmp3Loop_eq_iff_eqLoop cmp bne hkey (flatten l) (flatten r)

/-- Witness for C2 at `a = {{0,1},{2,3}}`, `b = {{0,1},{2,2}}` over `Nat`
with the natural-number comparison operations. -/
theorem compare_three_way_spec_witness :
    (compare_three_way cmpNat vA vB =
        ((((flatten vA).zip (flatten vB)).map (fun p => cmpNat p.1 p.2)).find?
          (fun c => decide (c ≠ POrd.eq))).getD POrd.eq)
    ∧ (compare_three_way cmpNat vA vB = POrd.eq ↔
        equal_to beqNat bneNat vA vB = true) :=
  compare_three_way_spec cmpNat beqNat bneNat vA vB
    cmpNat_eq_iff (fun _ _ => rfl)

/-- C3: for all arrays A and B (of one same shape, as the
`totally_ordered_with` constraint requires), `less{}(A,B)` returns the
element < applied at the first flat index whose elements compare
unequal with the element !=, and false when no position compares
unequal — the `find?` over the row-major positional pairs; in
particular it is true iff a first differing position exists and A's
element there is < B's element. -/
theorem less_true_iff {α : Type} (bne blt : α → α → Bool) {n : Nat}
    {s : Shape} (l r : Val α (.array n s)) :
    less bne blt l r =
      (((flatten l).zip (flatten r)).find? (fun p => bne p.1 p.2)).elim
        false (fun p => blt p.1 p.2) :=
  lessLoop_eq_find bne blt (flatten l) (flatten r)

/-- C5: for all same-shape operands whose element != holds exactly on
non-equivalent pairs and whose element < holds exactly on less-ordered
pairs (the semantic requirements of total ordering, stated so that
partial orders with an unordered outcome are admitted too), the
independently computed `less` and `compare_three_way` agree:
`less(A,B)` is true if and only if `compare_three_way(A,B) < 0`. -/
theorem less_iff_compare_three_way_lt {α : Type} (cmp : α → α → POrd)
    (bne blt : α → α → Bool) {s : Shape} (l r : Val α s)
    (hne : ∀ a b, (bne a b = true ↔ ¬ cmp a b = POrd.eq))
    (hlt : ∀ a b, (blt a b = true ↔ cmp a b = POrd.lt)) :
    (less bne blt l r = true ↔ (compare_three_way cmp l r).isLt = true) := by
  cases s with
  | scalar =>
      show blt l r = true ↔ (cmp l r).isLt = true
      rw [hlt l r]
      cases cmp l r <;> simp [POrd.isLt]
  | array n s =>
      show lessLoop bne blt (flatten l) (flatten r) = true ↔ _
      rw [lessLoop_eq_cmp3Loop_isLt cmp bne blt hne hlt]
      exact Iff.rfl

/-- Witness for C5 at `a = {1,2}`, `b = {1,3}` over `Nat` with the
natural-number comparison operations. -/
theorem less_iff_compare_three_way_lt_witness :
    (less bneNat bltNat vC vD = true ↔
      (compare_three_way cmpNat vC vD).isLt = true) :=
  less_iff_compare_three_way_lt cmpNat bneNat bltNat vC vD
    cmpNat_ne_iff cmpNat_lt_iff

/-- The loop of `assign_to<L>::operator=(R&&)`
(c_array_assign.hpp section, lines 652-653 of the bundled header): for
each flat index `i`, `flat_index(l,i) = flat_index(r,i)`, modelled as
rewriting the row-major elements of `l` with the supplied list of
values (positions beyond the list keep their old element). The
row-major chunking mirrors the spec-modelled `flat_index`. -/
def overwriteFlat {α : Type} : {s : Shape} → Val α s → List α → Val α s
  | .scalar, a, vs => vs.headD a
  | .array _ s, v, vs =>
      fun i => overwriteFlat (v i) ((vs.drop (i.val * flat_size s)).take (flat_size s))

/-- Row-major chunks of size `k` taken at offsets `0, k, 2k, ...`
reassemble the original list when its length is exactly `n * k`. -/
theorem flatMap_chunks {α : Type} (k : Nat) :
    ∀ (n : Nat) (vs : List α), vs.length = n * k →
      (List.finRange n).flatMap (fun i => (vs.drop (i.val * k)).take k) = vs := by
  intro n
  induction n with
  | zero =>
      intro vs h
      rw [Nat.zero_mul] at h
      rw [List.length_eq_zero.mp h]
      simp
  | succ n ih =>
      intro vs h
      rw [List.finRange_succ_eq_map, List.flatMap_cons, List.flatMap_map]
      have htail : ∀ i : Fin n,
          (vs.drop ((Fin.succ i).val * k)).take k =
            ((vs.drop k).drop (i.val * k)).take k := by
        intro i
        rw [List.drop_drop]
        congr 1
        simp [Fin.val_succ, Nat.succ_mul, Nat.add_comm, Nat.mul_comm]
      have htail2 :
          ((List.finRange n).flatMap
            (fun i => (vs.drop ((Fin.succ i).val * k)).take k)) = vs.drop k := by
        rw [List.flatMap_congr (fun i _ => htail i)]
        exact ih (vs.drop k) (by simp [h, Nat.succ_mul, Nat.add_comm])
      rw [htail2]
      simp only [Fin.val_zero, Nat.zero_mul, List.drop_zero]
      exact List.take_append_drop k vs

/-- Overwriting all row-major positions of `l` with a list of exactly
`flat_size` values yields a value whose row-major elements are that
list: the elementwise assignment loop copies every element of the
right-hand side into the left-hand side. -/
theorem flatten_overwriteFlat {α : Type} :
    {s : Shape} → (l : Val α s) → (vs : List α) → vs.length = flat_size s →
      flatten (overwriteFlat l vs) = vs
  | .scalar, a, vs, h => by
      obtain ⟨x, rfl⟩ := List.length_eq_one.mp h
      rfl
  | .array n s, v, vs, h => by
      show (List.finRange n).flatMap
          (fun i => flatten (overwriteFlat (v i)
            ((vs.drop (i.val * flat_size s)).take (flat_size s)))) = vs
      have hchunk : ∀ i : Fin n,
          ((vs.drop (i.val * flat_size s)).take (flat_size s)).length =
            flat_size s := by
        intro i
        have hle : i.val * flat_size s + flat_size s ≤ n * flat_size s := by
          have : i.val + 1 ≤ n := i.isLt
          calc i.val * flat_size s + flat_size s
              = (i.val + 1) * flat_size s := by rw [Nat.succ_mul]
            _ ≤ n * flat_size s := Nat.mul_le_mul_right _ this
        simp only [List.length_take, List.length_drop, h, flat_size]
        omega
      rw [List.flatMap_congr
        (fun i _ => flatten_overwriteFlat (v i) _ (hchunk i))]
      exact flatMap_chunks (flat_size s) n vs h

/-- The equality loop accepts a list compared against itself whenever
the element != is irreflexive. -/
theorem eqLoop_self {α : Type} (bne : α → α → Bool)
    (h : ∀ a, bne a a = false) : ∀ xs : List α, eqLoop bne xs xs = true := by
  intro xs
  induction xs with
  | nil => rfl
  | cons x xs ih => simp [eqLoop, h x, ih]

/-- The `assign_toable` concept (c_array_assign.hpp section, lines
620-621 of the bundled header): a specialization of the `assign_to`
customization point exists for a type exactly when it is a C array and
the language lacks native array copy (the `requires (!std::copyable<L>)`
clause of the array specialization, lines 626-627; `copyable_array`
models the `is_copyable_array` capability flag). -/
def assign_toable (copyable_array : Bool) (s : Shape) : Bool :=
  isArrayShape s && !copyable_array

/-- The value returned by `assign(l)`: either the `assign_to` proxy
wrapping the lvalue, or the forwarded lvalue itself. -/
inductive AssignLHS (α : Type) (s : Shape) : Type where
  | proxy : Val α s → AssignLHS α s
  | ref : Val α s → AssignLHS α s

/-- The `assign` function (c_array_assign.hpp section, lines 670-677 of
the bundled header): returns `assign_to{l}` if `assign_to` is
specialized for the type, else the forwarded reference to `l` itself. -/
def assign (copyable_array : Bool) {α : Type} {s : Shape} (l : Val α s) :
    AssignLHS α s :=
  if assign_toable copyable_array s then .proxy l else .ref l

/-- Assignment through the result of `assign(l)`: through the proxy it
is the elementwise loop of `assign_to<L>::operator=` (lines 647-655 of
the bundled header); through a plain reference it is the type's native
assignment, whose result is the assigned value. -/
def assignEq {α : Type} {s : Shape} : AssignLHS α s → Val α s → Val α s
  | .proxy l, r => overwriteFlat l (flatten r)
  | .ref _, r => r

/-- C6: round-trip of assignment and equality: for every lvalue `l` and
value `r` of one matching shape with equality-comparable elements
(== reflexive, != its negation), after `assign(l) = r` the comparison
`equal_to{}(l, r)` is true — every flat element of `l` equals the
corresponding flat element of `r`. -/
theorem assign_round_trip {α : Type} (beq bne : α → α → Bool) {s : Shape}
    (l r : Val α s)
    (hbne : ∀ a b, bne a b = !(beq a b)) (hrefl : ∀ a, beq a a = true) :
    equal_to beq bne (assignEq (assign false l) r) r = true := by
  have hirr : ∀ a, bne a a = false := by
    intro a
    rw [hbne a a, hrefl a]
    rfl
  cases s with
  | scalar =>
      show beq r r = true
      exact hrefl r
  | array n s =>
      show eqLoop bne
        (flatten (overwriteFlat l (flatten r))) (flatten r) = true
      rw [flatten_overwriteFlat l (flatten r) (flatten_length r)]
      exact eqLoop_self bne hirr (flatten r)

/-- Witness for C6 at `l` of type `int[2][2]` and `r = {{0,1},{2,3}}`
over `Nat`. -/
theorem assign_round_trip_witness :
    equal_to beqNat bneNat (assignEq (assign false vB) vA) vA = true :=
  assign_round_trip beqNat bneNat vB vA (fun _ _ => rfl)
    (fun a => by simp [beqNat])

/-- The concrete row `{0,1}` as a value of shape 2. -/
def row01 : Val Nat (.array 2 .scalar) := mkArr 2 (fun i => mkScalar i.val)

/-- The concrete row `{2,3}` as a value of shape 2. -/
def row23 : Val Nat (.array 2 .scalar) :=
  mkArr 2 (fun i => mkScalar (i.val + 2))

/-- The `assign_elements` function (c_array_assign.hpp section, lines
679-689 of the bundled header): its constraint demands every supplied
value be assignable to the once-extent-removed type (here encoded by
the values' shape `s`), its static_assert demands the argument count
equal `std::extent_v` — the OUTERMOST extent `n` — and each value is
assigned, via `assign(*p++) = v`, to the next outermost subobject.
A failed constraint or static_assert (a compile-time rejection) is
modelled as `none`. -/
def assign_elements (copyable_array : Bool) {α : Type} {n : Nat}
    {s : Shape} (l : Val α (.array n s)) (vs : List (Val α s)) :
    Option (Val α (.array n s)) :=
  if h : vs.length = n then
    some (mkArr n (fun i =>
      assignEq (assign copyable_array (l i))
        (vs.get ⟨i.val, by rw [h]; exact i.isLt⟩)))
  else none

/-- Assignment through `assign` rewrites the target's row-major
elements with exactly those of the right-hand side. -/
theorem flatten_assignEq_assign {α : Type} : {s : Shape} →
    (x v : Val α s) → flatten (assignEq (assign false x) v) = flatten v
  | .scalar, _, _ => rfl
  | .array n s, x, v => by
      show flatten (overwriteFlat x (flatten v)) = flatten v
      exact flatten_overwriteFlat x (flatten v) (flatten_length v)

/-- Counterexample to C7 as stated: on an `int[2][2]` array
(`total_extent` 4) the call `assign_elements(arr, row01, row23)` with
only TWO supplied values is accepted by the code (count equals the
outermost extent 2), where the claim demands that any count other than
`total_extent` = 4 be a compile-time rejection. -/
theorem assign_elements_count_counterexample :
    ((assign_elements false vB [row01, row23]).isSome = true)
    ∧ [row01, row23].length ≠ flat_size (.array 2 (.array 2 .scalar)) := by
  constructor
  · rfl
  · decide

/-- C7 (amended): `assign_elements(arr, v0, ..., vN-1)` requires the
count of supplied values to equal the OUTERMOST extent of the array
exactly — any other count is a compile-time rejection, never a partial
assignment or padding — and when the count matches, each value `vi` is
assigned positionally to the `i`-th outermost subobject, so the
row-major elements of the result are the concatenated row-major
elements of the supplied values (for a one-dimensional array the
outermost extent is `total_extent` and `vi` lands at flat index `i`,
as the claim stated). -/
theorem assign_elements_spec {α : Type} {n : Nat} {s : Shape}
    (l : Val α (.array n s)) (vs : List (Val α s)) :
    ((assign_elements false l vs).isSome = true ↔ vs.length = n)
    ∧ (∀ l', assign_elements false l vs = some l' →
        flatten l' = vs.flatMap (fun v => flatten v)) := by
  by_cases h : vs.length = n
  · subst h
    constructor
    · simp [assign_elements]
    · intro l' hl'
      simp only [assign_elements, dif_pos] at hl'
      injection hl' with hl2
      rw [← hl2]
      show (List.finRange vs.length).flatMap
        (fun i => flatten (assignEq (assign false (l i))
          (vs.get ⟨i.val, i.isLt⟩))) = _
      have hstep : ∀ i ∈ List.finRange vs.length,
          flatten (assignEq (assign false (l i)) (vs.get ⟨i.val, i.isLt⟩)) =
            flatten (vs.get ⟨i.val, i.isLt⟩) := by
        intro i _
        exact flatten_assignEq_assign (l i) (vs.get ⟨i.val, i.isLt⟩)
      rw [List.flatMap_congr hstep]
      have hmap : (List.finRange vs.length).map
          (fun i : Fin vs.length => vs.get ⟨i.val, i.isLt⟩) = vs := by
        have h2 : (fun i : Fin vs.length => vs.get ⟨i.val, i.isLt⟩) = vs.get := by
          funext i
          rfl
        rw [h2]
        exact List.finRange_map_get vs
      calc (List.finRange vs.length).flatMap
            (fun i => flatten (vs.get ⟨i.val, i.isLt⟩))
          = ((List.finRange vs.length).map
              (fun i : Fin vs.length => vs.get ⟨i.val, i.isLt⟩)).flatMap
              (fun v => flatten v) := by
            rw [List.flatMap_map]
        _ = vs.flatMap (fun v => flatten v) := by rw [hmap]
  · constructor
    · simp [assign_elements, h]
    · intro l' hl'
      simp [assign_elements, h] at hl'

/-- Witness for C7's amended theorem at a 2 x 2 array and the two rows
`{0,1}` and `{2,3}`. -/
theorem assign_elements_spec_witness :
    ((assign_elements false vA [row01, row23]).isSome = true ↔
      [row01, row23].length = 2)
    ∧ (∀ l', assign_elements false vA [row01, row23] = some l' →
        flatten l' = [row01, row23].flatMap (fun v => flatten v)) :=
  assign_elements_spec vA [row01, row23]

/-- Modelled from the spec: `all_extents_removed` on shapes (missing
header c_array_support.hpp): strips all array dimensions, so every
shape strips to the non-array shape. -/
def all_extents_removed (_ : Shape) : Shape := Shape.scalar

/-- The shape part of lml::equality_comparable_with
(c_array_compare.hpp, lines 119-123): the innermost element types must
be std-equality-comparable (the parameter `elem_ok`) AND the two types
must have the same extents. -/
def equality_comparable_with (elem_ok : Bool) (L R : Shape) : Bool :=
  elem_ok && same_extents L R

/-- The shape part of lml::three_way_comparable_with
(c_array_compare.hpp, lines 102-106): the innermost element types must
be std-three-way-comparable (`elem_ok`) AND the two types must have the
same extents. -/
def three_way_comparable_with (elem_ok : Bool) (L R : Shape) : Bool :=
  elem_ok && same_extents L R

/-- The shape part of lml::totally_ordered_with
(c_array_compare.hpp, lines 133-137): the innermost element types must
be std-totally-ordered (`elem_ok`) AND the two types must have the same
extents. -/
def totally_ordered_with (elem_ok : Bool) (L R : Shape) : Bool :=
  elem_ok && same_extents L R

/-- The shape part of impl::pointer_equality_comparable_with
(c_array_compare.hpp, lines 149-159): both operand types must be
non-array; the remaining pointer requirements (built-in ==, conversion
to cv void*, no user-declared comparison operator) are the parameter
`ptr_ok`. -/
def pointer_equality_comparable_with (ptr_ok : Bool) (P Q : Shape) :
    Bool :=
  !isArrayShape P && !isArrayShape Q && ptr_ok

/-- The shape part of impl::pointer_less_than_comparable_with
(c_array_compare.hpp, lines 163-173): both operand types must be
non-array; the remaining pointer requirements (built-in <, conversion
to cv void*, no user-declared comparison operator) are the parameter
`ptr_ok`. -/
def pointer_less_than_comparable_with (ptr_ok : Bool) (P Q : Shape) :
    Bool :=
  !isArrayShape P && !isArrayShape Q && ptr_ok

/-- The whole requires-clause of lml::equal_to and lml::not_equal_to
(c_array_compare.hpp, lines 218-220 and 250-253):
`equality_comparable_with<L,R>` OR the pointer concept applied to the
ALL-EXTENTS-REMOVED operand types. -/
def equal_to_constraint (elem_ok ptr_ok : Bool) (L R : Shape) : Bool :=
  equality_comparable_with elem_ok L R
  || pointer_equality_comparable_with ptr_ok
      (all_extents_removed L) (all_extents_removed R)

/-- The whole requires-clause of lml::less (c_array_compare.hpp, lines
276-279): `totally_ordered_with<L,R>` OR the pointer concept applied to
the ALL-EXTENTS-REMOVED operand types. -/
def less_constraint (elem_ok ptr_ok : Bool) (L R : Shape) : Bool :=
  totally_ordered_with elem_ok L R
  || pointer_less_than_comparable_with ptr_ok
      (all_extents_removed L) (all_extents_removed R)

/-- The lml::assignable_from concept (c_array_assign.hpp section, lines
501-508 of the bundled header): with native array copy, or for a
non-array left type, it is the std concept (`std_assignable`);
otherwise it is the std concept on the innermost element types
(`elem_assignable`) AND `same_extents`. -/
def assignable_from (copyable_array std_assignable elem_assignable : Bool)
    (L R : Shape) : Bool :=
  if copyable_array || !isArrayShape L then std_assignable
  else elem_assignable && same_extents L R

/-- The 2 x 3 array shape of the claimed scenario. -/
def sh23 : Shape := .array 2 (.array 3 .scalar)

/-- The 3 x 2 array shape of the claimed scenario. -/
def sh32 : Shape := .array 3 (.array 2 .scalar)

/-- C4: evaluation of the code's applicability constraints at the
failing input, the shapes 2 x 3 versus 3 x 2: `same_extents` is false and
with it `compare_three_way`'s constraint, `assignable_from`, and — for
elements that are not raw pointers (`ptr_ok` false) — the constraints
of `equal_to`/`not_equal_to` and `less`, exactly as the claim states;
but for arrays OF RAW POINTERS (`ptr_ok` true, e.g. element type
`int*`) the pointer disjunct is applied to the all-extents-removed
types, which are non-array, so it carries no `same_extents` check and
the differently-shaped pair is ACCEPTED by `equal_to`, `not_equal_to`
and `less` — contradicting the claim (and the header's own
documentation that only same-shape arrays are comparable). -/
theorem shape_mismatch_constraint_eval :
    same_extents sh23 sh32 = false
    ∧ equal_to_constraint true false sh23 sh32 = false
    ∧ less_constraint true false sh23 sh32 = false
    ∧ three_way_comparable_with true sh23 sh32 = false
    ∧ assignable_from false false true sh23 sh32 = false
    ∧ equal_to_constraint true true sh23 sh32 = true
    ∧ less_constraint true true sh23 sh32 = true := by
  decide

/-- A C++ type for the trait layer: its array shape together with its
innermost element type (the `base`, carrying whatever element-level
facts a std trait consults). -/
structure CType (β : Type) where
  shape : Shape
  base : β

/-- Modelled from the spec: `all_extents_removed_t` on full types
(missing header c_array_support.hpp): strips all array dimensions,
keeping the innermost element type. -/
def all_extents_removed_t {β : Type} (t : CType β) : CType β :=
  ⟨Shape.scalar, t.base⟩

/-- A native std unary assignability trait (e.g.
std::is_copy_assignable_v), as a function of the type: on a non-array
type it consults the element-level predicate directly; on an array type
it is false unless the language supports native array copy (in which
case it follows the element). -/
def std_unary_assignable {β : Type} (copyable_array : Bool)
    (pred : β → Bool) (t : CType β) : Bool :=
  if isArrayShape t.shape then copyable_array && pred t.base
  else pred t.base

/-- lml::is_copy_assignable_v (c_array_assign.hpp section, lines
541-544 of the bundled header): the native std trait of the type itself
when the language supports array copy, else the native std trait of the
all-extents-removed type. -/
def is_copy_assignable_v {β : Type} (copyable_array : Bool)
    (pred : β → Bool) (t : CType β) : Bool :=
  if copyable_array then std_unary_assignable copyable_array pred t
  else std_unary_assignable copyable_array pred (all_extents_removed_t t)

/-- lml::is_move_assignable_v (c_array_assign.hpp section, lines
548-551 of the bundled header): the native std trait of the type itself
when the language supports array copy, else the native std trait of the
all-extents-removed type (the trivially and nothrow variants, lines
555-581, have this same form with their own std predicate). -/
def is_move_assignable_v {β : Type} (copyable_array : Bool)
    (pred : β → Bool) (t : CType β) : Bool :=
  if copyable_array then std_unary_assignable copyable_array pred t
  else std_unary_assignable copyable_array pred (all_extents_removed_t t)

/-- C8: unary trait redirection when the language lacks native array
copy: for every type the lml unary assignability traits report the
equivalent trait of the type's innermost element type (so for an array
type they redirect to the element, e.g. `is_copy_assignable_v<int[3]>`
equals `is_copy_assignable_v<int>`, and likewise the move variant and,
by identical form, the trivially/nothrow variants), while for a
non-array type they equal the native std trait of the type itself. -/
theorem unary_trait_redirect {β : Type} (predc predm : β → Bool)
    (t : CType β) :
    (is_copy_assignable_v false predc t =
       is_copy_assignable_v false predc (all_extents_removed_t t))
    ∧ (is_move_assignable_v false predm t =
       is_move_assignable_v false predm (all_extents_removed_t t))
    ∧ (isArrayShape t.shape = false →
        is_copy_assignable_v false predc t =
          std_unary_assignable false predc t
        ∧ is_move_assignable_v false predm t =
          std_unary_assignable false predm t) := by
  obtain ⟨s, b⟩ := t
  refine ⟨rfl, rfl, ?_⟩
  intro h
  cases s with
  | scalar => exact ⟨rfl, rfl⟩
  | array n s => exact absurd h (by simp [isArrayShape])

/-- Witness for C8 at `T = int[3]` (base fact true) with identity
element predicates: the lml trait of `int[3]` equals the lml trait of
`int`. -/
theorem unary_trait_redirect_witness :
    (is_copy_assignable_v false (fun b : Bool => b)
        ⟨Shape.array 3 Shape.scalar, true⟩ =
       is_copy_assignable_v false (fun b : Bool => b)
        (all_extents_removed_t ⟨Shape.array 3 Shape.scalar, true⟩))
    ∧ (is_move_assignable_v false (fun b : Bool => b)
        ⟨Shape.array 3 Shape.scalar, true⟩ =
       is_move_assignable_v false (fun b : Bool => b)
        (all_extents_removed_t ⟨Shape.array 3 Shape.scalar, true⟩))
    ∧ (isArrayShape (Shape.array 3 Shape.scalar) = false →
        is_copy_assignable_v false (fun b : Bool => b)
          ⟨Shape.array 3 Shape.scalar, true⟩ =
          std_unary_assignable false (fun b : Bool => b)
            ⟨Shape.array 3 Shape.scalar, true⟩
        ∧ is_move_assignable_v false (fun b : Bool => b)
          ⟨Shape.array 3 Shape.scalar, true⟩ =
          std_unary_assignable false (fun b : Bool => b)
            ⟨Shape.array 3 Shape.scalar, true⟩) :=
  unary_trait_redirect (fun b : Bool => b) (fun b : Bool => b)
    ⟨Shape.array 3 Shape.scalar, true⟩

/-- The raw-pointer branch of lml::less (c_array_compare.hpp, lines
283-293): under constant evaluation it falls back to the native pointer
< (`native_lt`); at runtime it converts both pointers through the
address-sized unsigned integer (`to_addr`, the
`reinterpret_cast<UINTPTR>` through `void const volatile*`) and
compares the integers. -/
def ptr_less {π : Type} (constant_evaluated : Bool) (to_addr : π → Nat)
    (native_lt : π → π → Bool) (p q : π) : Bool :=
  if constant_evaluated then native_lt p q
  else decide (to_addr p < to_addr q)

/-- C9: for raw pointers, the runtime path of `less{}` orders by the
address-sized integer conversion, a strict total order: it is
irreflexive, and for two pointers with distinct addresses (any two
distinct, unrelated, non-null object pointers) it is asymmetric-total,
`less(q,p) == !less(p,q)`; under constant evaluation it equals the
native pointer <. -/
theorem ptr_less_strict_total_order {π : Type} (to_addr : π → Nat)
    (native_lt : π → π → Bool) (p q : π)
    (h : to_addr p ≠ to_addr q) :
    (ptr_less false to_addr native_lt q p =
      !(ptr_less false to_addr native_lt p q))
    ∧ (ptr_less false to_addr native_lt p p = false)
    ∧ (ptr_less true to_addr native_lt p q = native_lt p q) := by
  refine ⟨?_, ?_, rfl⟩
  · show decide (to_addr q < to_addr p) = !(decide (to_addr p < to_addr q))
    rcases Nat.lt_trichotomy (to_addr p) (to_addr q) with hlt | heq | hgt
    · have h1 : ¬ to_addr q < to_addr p := by omega
      simp [hlt, h1]
    · exact absurd heq h
    · have h1 : ¬ to_addr p < to_addr q := by omega
      simp [hgt, h1]
  · show decide (to_addr p < to_addr p) = false
    simp

/-- Witness for C9 at two distinct concrete addresses 16 and 32. -/
theorem ptr_less_strict_total_order_witness :
    (ptr_less false (fun a : Nat => a) (fun a b : Nat => decide (a < b))
        32 16 =
      !(ptr_less false (fun a : Nat => a)
          (fun a b : Nat => decide (a < b)) 16 32))
    ∧ (ptr_less false (fun a : Nat => a)
        (fun a b : Nat => decide (a < b)) 16 16 = false)
    ∧ (ptr_less true (fun a : Nat => a)
        (fun a b : Nat => decide (a < b)) 16 32 =
      (fun a b : Nat => decide (a < b)) 16 32) :=
  ptr_less_strict_total_order (fun a : Nat => a)
    (fun a b : Nat => decide (a < b)) 16 32 (by decide)

/-- C10: for a non-array lvalue (whose type has no `assign_to`
specialization — the array specialization is the only one in the
header), `assign(l)` returns the forwarded reference to `l` itself, no
proxy is created, and assigning through it is the type's native
assignment, whose result and observable effect is the assigned value
`r`. -/
theorem assign_non_array_identity {α : Type} (c : Bool)
    (a r : Val α Shape.scalar) :
    (assign_toable c Shape.scalar = false)
    ∧ (assign c a = AssignLHS.ref a)
    ∧ (assignEq (assign c a) r = r) := by
  refine ⟨rfl, ?_, ?_⟩
  · show (if assign_toable c Shape.scalar then _ else _) = _
    rfl
  · rfl

end CArraySupport
